import Mathlib

/-!
Verification of the hand-written codecs of the `wcif` repository
(`src/types.rs`): the attempt-result numeric codec, the activity-code
string grammar with its specificity partial order, and the auxiliary
identifier codecs (`WCAId`, `AssignmentCode`).

The Rust values are embedded shallowly:
  * machine integers (`u32`, `u16`, `u8`, `i64`) become `Nat` / `Int`,
    with explicit `% 2^32` where the Rust code casts or where u32
    wrapping arithmetic is observable;
  * `&str` / `String` become `List Char`; byte positions (Rust strings
    are indexed by UTF-8 bytes) are tracked by an explicit per-char
    UTF-8 length, so that the byte-slicing behaviour of
    `WCAId::from_str` (including its panics) is representable;
  * fallible functions return `Except`/`Option`; functions that can
    panic return a dedicated result type with a `panicked` outcome.
-/

/-! ## Attempt result codec (`mod attempt_result` in src/types.rs) -/

/-- Embeds `enum AttemptResult<ARV> { Skipped, DNF, DNS, Success(ARV) }`. -/
inductive AttemptResult (α : Type) : Type
  | Skipped : AttemptResult α
  | DNF : AttemptResult α
  | DNS : AttemptResult α
  | Success (v : α) : AttemptResult α
deriving DecidableEq

/-- Embeds `AttemptResult::is_success`. -/
def AttemptResult.isSuccess : AttemptResult α → Bool
  | .Success _ => true
  | _ => false

/-- Embeds `struct MultiBlindAttemptResultValue { attempted: u32, solved: u32,
time: CentiSecondAttemptResultValue, old_style: bool }` (fields in source
order; all fields are private in the source, so every value of this type is
produced by the `From<u32>` decoder `mbFromRaw` below). -/
structure MultiBlindAttemptResultValue : Type where
  attempted : Nat
  solved : Nat
  time : Nat
  old_style : Bool
deriving DecidableEq

/-- Wrapping `u32` subtraction (release-mode Rust semantics), for operands
in `u32` range. -/
def u32sub (a b : Nat) : Nat := (a + 4294967296 - b) % 4294967296

/-- Embeds `MultiBlindAttemptResultValue::failed`: `self.attempted - self.solved`
(a `u32` subtraction). -/
def mbFailed (v : MultiBlindAttemptResultValue) : Nat := u32sub v.attempted v.solved

/-- Embeds `MultiBlindAttemptResultValue::points`: `self.solved() - self.failed()`
(a `u32` subtraction). -/
def mbPoints (v : MultiBlindAttemptResultValue) : Nat := u32sub v.solved (mbFailed v)

/-- Embeds `impl From<CentiSecondAttemptResultValue> for MultiBlindAttemptResultValue`
(src/types.rs:817-847), the packed-integer decoder with the magnitude-selected
current/legacy layouts.  The `99 - value` subtractions are `u32` subtractions;
in both branches the subtrahend is at most 99, so `Nat` subtraction agrees. -/
def mbFromRaw (value : Nat) : MultiBlindAttemptResultValue :=
  if value < 1000000000 then
    let missed := value % 100
    let value1 := value / 100
    let time := value1 % 100000
    let value2 := value1 / 100000
    let difference := 99 - value2
    let solved := difference + missed
    let attempted := solved + missed
    ⟨attempted, solved, time, false⟩
  else
    let time := value % 100000
    let value1 := value / 100000
    let attempted := value1 % 100
    let value2 := value1 / 100
    let solved := 99 - (value2 % 100)
    ⟨attempted, solved, time, true⟩

/-- Embeds `impl Serialize for MultiBlindAttemptResultValue` (src/types.rs:756-773):
the re-encoder, branching on the recorded `old_style` flag.  The arithmetic is
`u32` arithmetic in the source; the trailing `% 2^32` makes the wrapping
explicit (`99 - ...` subtractions go through `u32sub`). -/
def mbSerialize (v : MultiBlindAttemptResultValue) : Nat :=
  (if v.old_style then
    1000000000 + u32sub 99 v.solved * 10000000 + v.attempted * 100000 + v.time
  else
    u32sub 99 (mbPoints v) * 10000000 + v.time * 100 + mbFailed v) % 4294967296

/-- Embeds the hand-written `impl PartialOrd for MultiBlindAttemptResultValue`
(src/types.rs:849-856): points, then time reversed, then failed reversed.
Rust's `Ordering::reverse` is Lean's `Ordering.swap`, `Ordering::then` is
`Ordering.then`. -/
def mbPartCmp (a b : MultiBlindAttemptResultValue) : Option Ordering :=
  some (((compare (mbPoints a) (mbPoints b)).then
      ((compare a.time b.time).swap)).then
      ((compare (mbFailed a) (mbFailed b)).swap))

/-- Embeds the `#[derive(Ord)]` total order on `MultiBlindAttemptResultValue`:
lexicographic over the fields in declaration order
(`attempted`, `solved`, `time`, `old_style`); `false < true` for `bool`. -/
def mbDerivedCmp (a b : MultiBlindAttemptResultValue) : Ordering :=
  ((compare a.attempted b.attempted).then (compare a.solved b.solved)).then
    ((compare a.time b.time).then (compare a.old_style b.old_style))

/-- Embeds the generic `impl PartialOrd for AttemptResult<ARV>`
(src/types.rs:880-889).  The payload comparison `a.cmp(&b)` uses the payload's
`Ord` instance, passed here as `c`; for `MultiBlindAttemptResultValue` that is
the derived `mbDerivedCmp`, not the hand-written `mbPartCmp`. -/
def attemptPartCmp (c : α → α → Ordering) :
    AttemptResult α → AttemptResult α → Option Ordering
  | .Success a, .Success b => some ((c a b).swap)
  | .Success _, _ => some Ordering.gt
  | _, .Success _ => some Ordering.lt
  | _, _ => some Ordering.eq

/-- Embeds `impl TryFrom<i64> for AttemptResult<ARV>` (src/types.rs:781-793):
`-2 → DNS`, `-1 → DNF`, `0 → Skipped`, positive `x → Success(x as u32)`
(the cast truncates to 32 bits), anything else → `Err(())`. -/
def attemptTryFromI64 (x : Int) : Except Unit (AttemptResult Nat) :=
  if x = -2 then .ok .DNS
  else if x = -1 then .ok .DNF
  else if x = 0 then .ok .Skipped
  else if 0 < x then .ok (.Success (x % 4294967296).toNat)
  else .error ()

deriving instance DecidableEq for Except

/-! ## String layer: Rust `&str` as `List Char` with UTF-8 byte accounting -/

/-- Number of UTF-8 bytes a char occupies (Rust `char::len_utf8`). -/
def utf8Len (c : Char) : Nat :=
  if c.toNat < 128 then 1
  else if c.toNat < 2048 then 2
  else if c.toNat < 65536 then 3
  else 4

/-- Rust `str::len`: the length in bytes, not chars. -/
def byteLen (s : List Char) : Nat := (s.map utf8Len).sum

/-- Rust `&s[..n]`: the chars making up the first `n` bytes, or `none` when
`n` is not a char boundary (where Rust panics). -/
def takeBytes : List Char → Nat → Option (List Char)
  | _, 0 => some []
  | [], _ + 1 => none
  | c :: cs, n + 1 =>
    if utf8Len c ≤ n + 1 then (takeBytes cs (n + 1 - utf8Len c)).map (c :: ·)
    else none

/-- Rust `&s[n..]`: the chars after the first `n` bytes, or `none` when `n`
is not a char boundary (where Rust panics). -/
def dropBytes : List Char → Nat → Option (List Char)
  | s, 0 => some s
  | [], _ + 1 => none
  | c :: cs, n + 1 =>
    if utf8Len c ≤ n + 1 then dropBytes cs (n + 1 - utf8Len c)
    else none

/-- The ASCII digit char for `d < 10`. -/
def digitChar (d : Nat) : Char := Char.ofNat (48 + d)

/-- Little-endian decimal digits of `n`, with explicit fuel so the
definition is structural (any fuel `≥` the digit count gives the digits). -/
def digitsFuel : Nat → Nat → List Nat
  | 0, _ => []
  | fuel + 1, n => if n = 0 then [] else n % 10 :: digitsFuel fuel (n / 10)

/-- Rust `Display` of an unsigned integer (`write!("{}")`): its decimal
digits, `"0"` for zero. -/
def natToString (n : Nat) : List Char :=
  if n = 0 then ['0'] else ((digitsFuel n n).reverse.map digitChar)

/-- The value of an ASCII digit char (`'0'..='9'`), as in Rust
`char::to_digit(10)`. -/
def digitVal (c : Char) : Option Nat :=
  if 48 ≤ c.toNat ∧ c.toNat ≤ 57 then some (c.toNat - 48) else none

/-- Digit-folding core of Rust unsigned-integer `from_str`. -/
def parseDigitsCore : List Char → Nat → Option Nat
  | [], acc => some acc
  | c :: cs, acc =>
    match digitVal c with
    | some d => parseDigitsCore cs (acc * 10 + d)
    | none => none

/-- Rust unsigned `from_str` accepts one optional leading `+`. -/
def stripPlus (s : List Char) : List Char :=
  match s with
  | c :: tl => if c = '+' then tl else s
  | [] => s

/-- Rust `uN::from_str` for max value `maxVal` (e.g. `u32` → `4294967295`):
optional `+`, then a nonempty run of digits, rejecting empty input, stray
characters, and overflow past `maxVal`. -/
def parseUInt (maxVal : Nat) (s : List Char) : Option Nat :=
  match stripPlus s with
  | [] => none
  | c :: cs =>
    match parseDigitsCore (c :: cs) 0 with
    | some n => if n ≤ maxVal then some n else none
    | none => none

/-! ## WCAId codec (src/types.rs:201-259) -/

/-- Embeds `enum WCAIdParseError { ParseIntError(..), LengthError(usize) }`
(the `ParseIntError` payload is not inspected by any claim and is elided). -/
inductive WCAIdParseError : Type
  | ParseIntError : WCAIdParseError
  | LengthError (len : Nat) : WCAIdParseError
deriving DecidableEq

/-- Outcome of a Rust function that may also panic. -/
inductive RustResult (α β : Type) : Type
  | ok (a : α) : RustResult α β
  | err (e : β) : RustResult α β
  | panicked : RustResult α β
deriving DecidableEq

/-- Embeds `struct WCAId { year: u16, discriminant: u8, name: String }`
(field order as in source). -/
structure WCAId : Type where
  year : Nat
  discriminant : Nat
  name : List Char
deriving DecidableEq

/-- Embeds `impl Display for WCAId`: `write!("{}{}{:0>2}", year, name,
discriminant)` — the discriminant is right-aligned in width 2 with `'0'`
fill (3 digits stay 3 digits). -/
def wcaIdDisplay (w : WCAId) : List Char :=
  natToString w.year ++ w.name ++
    (if w.discriminant < 10 then '0' :: natToString w.discriminant
     else natToString w.discriminant)

/-- Embeds `impl FromStr for WCAId` (src/types.rs:243-259): byte-length check
`s.len() != 10`, then byte slices `&s[..4]` (year, `u16`), `&s[4..8]` (name,
verbatim), `&s[8..]` (discriminant, `u8`).  The byte slicing panics when the
index is not a char boundary; evaluation order matches the source (the year
is parsed before `&s[4..8]` is sliced). -/
def wcaIdFromStr (s : List Char) : RustResult WCAId WCAIdParseError :=
  if byteLen s ≠ 10 then .err (.LengthError (byteLen s))
  else
    match takeBytes s 4 with
    | none => .panicked
    | some pre =>
      match parseUInt 65535 pre with
      | none => .err .ParseIntError
      | some y =>
        match dropBytes s 4 with
        | none => .panicked
        | some rest =>
          match takeBytes rest 4 with
          | none => .panicked
          | some nm =>
            match dropBytes rest 4 with
            | none => .panicked
            | some suf =>
              match parseUInt 255 suf with
              | none => .err .ParseIntError
              | some d => .ok ⟨y, d, nm⟩

/-! ## Activity code grammar (`mod activity_code` and `mod puzzle_types`,
src/types.rs:951-1228, 1230-1511) -/

/-- Embeds `enum OfficialEventId` (src/types.rs:1256-1278). -/
inductive OfficialEventId : Type
  | Cube333 | Cube222 | Cube444 | Cube555 | Cube666 | Cube777
  | Blind333 | FewestMoves333 | OneHanded333
  | Clock | Megaminx | Pyraminx | Skewb | Square1
  | Blind444 | Blind555 | MultiBlind333 | Feet333
  | Magic | MasterMagic | MultiBlindOldStyle333
deriving DecidableEq

/-- Embeds `impl Display for OfficialEventId` (src/types.rs:1457-1483). -/
def eventIdDisplay : OfficialEventId → List Char
  | .Cube333 => ['3','3','3']
  | .Cube222 => ['2','2','2']
  | .Cube444 => ['4','4','4']
  | .Cube555 => ['5','5','5']
  | .Cube666 => ['6','6','6']
  | .Cube777 => ['7','7','7']
  | .Blind333 => ['3','3','3','b','f']
  | .FewestMoves333 => ['3','3','3','f','m']
  | .OneHanded333 => ['3','3','3','o','h']
  | .Feet333 => ['3','3','3','f','t']
  | .Clock => ['c','l','o','c','k']
  | .Megaminx => ['m','i','n','x']
  | .Pyraminx => ['p','y','r','a','m']
  | .Skewb => ['s','k','e','w','b']
  | .Square1 => ['s','q','1']
  | .Blind444 => ['4','4','4','b','f']
  | .Blind555 => ['5','5','5','b','f']
  | .MultiBlind333 => ['3','3','3','m','b','f']
  | .Magic => ['m','a','g','i','c']
  | .MasterMagic => ['m','m','a','g','i','c']
  | .MultiBlindOldStyle333 => ['3','3','3','m','b','o']

/-- Embeds `impl FromStr for OfficialEventId` (src/types.rs:1426-1455). -/
def eventIdFromStr (s : List Char) : Except Unit OfficialEventId :=
  if s = ['3','3','3'] then .ok .Cube333
  else if s = ['2','2','2'] then .ok .Cube222
  else if s = ['4','4','4'] then .ok .Cube444
  else if s = ['5','5','5'] then .ok .Cube555
  else if s = ['6','6','6'] then .ok .Cube666
  else if s = ['7','7','7'] then .ok .Cube777
  else if s = ['3','3','3','b','f'] then .ok .Blind333
  else if s = ['3','3','3','f','m'] then .ok .FewestMoves333
  else if s = ['3','3','3','o','h'] then .ok .OneHanded333
  else if s = ['3','3','3','f','t'] then .ok .Feet333
  else if s = ['c','l','o','c','k'] then .ok .Clock
  else if s = ['m','i','n','x'] then .ok .Megaminx
  else if s = ['p','y','r','a','m'] then .ok .Pyraminx
  else if s = ['s','k','e','w','b'] then .ok .Skewb
  else if s = ['s','q','1'] then .ok .Square1
  else if s = ['4','4','4','b','f'] then .ok .Blind444
  else if s = ['5','5','5','b','f'] then .ok .Blind555
  else if s = ['3','3','3','m','b','f'] then .ok .MultiBlind333
  else if s = ['m','a','g','i','c'] then .ok .Magic
  else if s = ['m','m','a','g','i','c'] then .ok .MasterMagic
  else if s = ['3','3','3','m','b','o'] then .ok .MultiBlindOldStyle333
  else .error ()

/-- Embeds `struct EventActivityCode<EventId> { event, round: Option<u32>,
group: Option<u32>, attempt: Option<u8> }`. -/
structure EventActivityCode (ε : Type) : Type where
  event : ε
  round : Option Nat
  group : Option Nat
  attempt : Option Nat
deriving DecidableEq

/-- Rust `str::split("-")`: never empty, keeps empty fragments. -/
def splitOnDash : List Char → List (List Char)
  | [] => [[]]
  | c :: cs =>
    match splitOnDash cs with
    | [] => [[]]
    | p :: ps => if c = '-' then [] :: p :: ps else (c :: p) :: ps

/-- Rust `str::starts_with` for a single-char pattern. -/
def startsWithChar (c : Char) : List Char → Bool
  | [] => false
  | x :: _ => x = c

/-- Rust `str::starts_with` for a string pattern (first argument). -/
def startsWithChars : List Char → List Char → Bool
  | [], _ => true
  | _ :: _, [] => false
  | p :: ps, c :: cs => p = c && startsWithChars ps cs

/-- The round step of `EventActivityCode::from_str` (src/types.rs:1145-1150):
peeks at the next token; consumes it only when it starts with `r`, in which
case the rest of the token must parse as a `u32`. -/
def roundStage (parts : List (List Char)) :
    Except Unit (Option Nat × List (List Char)) :=
  match parts with
  | [] => .ok (none, [])
  | x :: tl =>
    if startsWithChar 'r' x then
      match parseUInt 4294967295 (x.drop 1) with
      | some r => .ok (some r, tl)
      | none => .error ()
    else .ok (none, x :: tl)

/-- The group step of `EventActivityCode::from_str` (src/types.rs:1152-1157),
like `roundStage` with prefix `g`. -/
def groupStage (parts : List (List Char)) :
    Except Unit (Option Nat × List (List Char)) :=
  match parts with
  | [] => .ok (none, [])
  | x :: tl =>
    if startsWithChar 'g' x then
      match parseUInt 4294967295 (x.drop 1) with
      | some g => .ok (some g, tl)
      | none => .error ()
    else .ok (none, x :: tl)

/-- The attempt step of `EventActivityCode::from_str` (src/types.rs:1159-1164):
uses `parts.next()`, so the token is consumed whether or not it starts with
`a`; a token without the `a` prefix falls to the `_ => None` arm. -/
def attemptStage (parts : List (List Char)) : Except Unit (Option Nat) :=
  match parts with
  | [] => .ok none
  | x :: _ =>
    if startsWithChar 'a' x then
      match parseUInt 255 (x.drop 1) with
      | some t => .ok (some t)
      | none => .error ()
    else .ok none

/-- Embeds `impl FromStr for EventActivityCode<EventId>`
(src/types.rs:1135-1173), parametric in the event parser `parseEv`
(`EventId::from_str`); error payloads (strings in the source) are elided. -/
def parseEventActivityCode (parseEv : List Char → Except Unit ε) (s : List Char) :
    Except Unit (EventActivityCode ε) :=
  match splitOnDash s with
  | [] => .error ()
  | evTok :: rest =>
    match parseEv evTok with
    | .error _ => .error ()
    | .ok event =>
      match roundStage rest with
      | .error _ => .error ()
      | .ok (round, rest1) =>
        match groupStage rest1 with
        | .error _ => .error ()
        | .ok (group, rest2) =>
          match attemptStage rest2 with
          | .error _ => .error ()
          | .ok attempt => .ok ⟨event, round, group, attempt⟩

/-- Embeds `impl Display for EventActivityCode<EventId>`
(src/types.rs:1119-1133): `event[-r{round}][-g{group}][-a{attempt}]`. -/
def displayEventActivityCode (dispEv : ε → List Char) (e : EventActivityCode ε) :
    List Char :=
  dispEv e.event ++
    (match e.round with | some r => '-' :: 'r' :: natToString r | none => []) ++
    (match e.group with | some g => '-' :: 'g' :: natToString g | none => []) ++
    (match e.attempt with | some t => '-' :: 'a' :: natToString t | none => [])

/-- Embeds `enum UnofficialActivityCode` (src/types.rs:1036-1050); `Other` is
the deprecated catch-all. -/
inductive UnofficialActivityCode : Type
  | Registration | Checkin | Tutorial | MultiSubmission
  | Breakfast | Lunch | Dinner | Awards
  | Event (e : EventActivityCode (List Char))
  | Misc (label : Option (List Char))
  | Other (s : List Char)
deriving DecidableEq

/-- Embeds `enum ActivityCode { Official(..), Unofficial(..) }`. -/
inductive ActivityCode : Type
  | Official (e : EventActivityCode OfficialEventId)
  | Unofficial (u : UnofficialActivityCode)
deriving DecidableEq

/-- Rust `String::from_str`, the infallible event parser used for
`EventActivityCode<String>`. -/
def parseStringEvent (s : List Char) : Except Unit (List Char) := .ok s

/-- Embeds `impl Display for UnofficialActivityCode` (src/types.rs:1077-1095). -/
def displayUnofficialActivityCode : UnofficialActivityCode → List Char
  | .Registration => ['r','e','g','i','s','t','r','a','t','i','o','n']
  | .Checkin => ['c','h','e','c','k','i','n']
  | .Tutorial => ['t','u','t','o','r','i','a','l']
  | .MultiSubmission => ['m','u','l','t','i']
  | .Breakfast => ['b','r','e','a','k','f','a','s','t']
  | .Lunch => ['l','u','n','c','h']
  | .Dinner => ['d','i','n','n','e','r']
  | .Awards => ['a','w','a','r','d','s']
  | .Event e => ['u','n','o','f','f','i','c','i','a','l','-']
      ++ displayEventActivityCode (fun s => s) e
  | .Misc (some x) => ['m','i','s','c','-'] ++ x
  | .Misc none => ['m','i','s','c']
  | .Other x => x

/-- Embeds `impl FromStr for UnofficialActivityCode` (src/types.rs:1097-1117):
the eight keywords and `misc` match exactly, then the `unofficial-` guard
(recursing with the loose string event type), then the `misc-` guard, then
the infallible `Other` catch-all. -/
def parseUnofficialActivityCode (s : List Char) : Except Unit UnofficialActivityCode :=
  if s = ['r','e','g','i','s','t','r','a','t','i','o','n'] then .ok .Registration
  else if s = ['c','h','e','c','k','i','n'] then .ok .Checkin
  else if s = ['t','u','t','o','r','i','a','l'] then .ok .Tutorial
  else if s = ['m','u','l','t','i'] then .ok .MultiSubmission
  else if s = ['b','r','e','a','k','f','a','s','t'] then .ok .Breakfast
  else if s = ['l','u','n','c','h'] then .ok .Lunch
  else if s = ['d','i','n','n','e','r'] then .ok .Dinner
  else if s = ['a','w','a','r','d','s'] then .ok .Awards
  else if s = ['m','i','s','c'] then .ok (.Misc none)
  else if startsWithChars ['u','n','o','f','f','i','c','i','a','l','-'] s then
    match parseEventActivityCode parseStringEvent (s.drop 11) with
    | .ok e => .ok (.Event e)
    | .error _ => .error ()
  else if startsWithChars ['m','i','s','c','-'] s then .ok (.Misc (some (s.drop 5)))
  else .ok (.Other s)

/-- Embeds `impl Display for ActivityCode` (src/types.rs:1056-1063). -/
def displayActivityCode : ActivityCode → List Char
  | .Official e => displayEventActivityCode eventIdDisplay e
  | .Unofficial u => ['o','t','h','e','r','-'] ++ displayUnofficialActivityCode u

/-- Embeds `impl FromStr for ActivityCode` (src/types.rs:1065-1075). -/
def parseActivityCode (s : List Char) : Except Unit ActivityCode :=
  if startsWithChars ['o','t','h','e','r','-'] s then
    match parseUnofficialActivityCode (s.drop 6) with
    | .ok u => .ok (.Unofficial u)
    | .error _ => .error ()
  else
    match parseEventActivityCode eventIdFromStr s with
    | .ok e => .ok (.Official e)
    | .error _ => .error ()

/-- Embeds `impl PartialOrd for EventActivityCode<EventId>`
(src/types.rs:998-1034): the specificity comparison.  The three field
comparisons run in order round → group → attempt, carrying the
`self_more_specific : Option<bool>` accumulator; the source's `unreachable!`
arms (both fields `None` yet unequal) are mapped to `none`.  Note that only
the attempt stage produces `Less`/`Greater` and the fall-through returns
`Equal` regardless of the accumulator. -/
def partCmpEventActivityCode [DecidableEq ε] (a b : EventActivityCode ε) :
    Option Ordering :=
  if a.event ≠ b.event then none
  else
    match (if a.round ≠ b.round then
        match a.round, b.round with
        | some _, some _ => none
        | some _, none => some (some true)
        | none, some _ => some (some false)
        | none, none => none
      else some none : Option (Option Bool)) with
    | none => none
    | some sms1 =>
      match (if a.group ≠ b.group then
          match a.group, b.group, sms1 with
          | some _, some _, _ => none
          | some _, none, some false => none
          | none, some _, some true => none
          | some _, none, _ => some (some true)
          | none, some _, _ => some (some false)
          | none, none, _ => none
        else some sms1 : Option (Option Bool)) with
      | none => none
      | some sms2 =>
        if a.attempt ≠ b.attempt then
          match a.attempt, b.attempt, sms2 with
          | some _, some _, _ => none
          | some _, none, some false => none
          | none, some _, some true => none
          | some _, none, _ => some Ordering.lt
          | none, some _, _ => some Ordering.gt
          | none, none, _ => none
        else some Ordering.eq

/-! ## Helper lemmas for the decimal and byte-slicing toolkit -/

def digitListVal : List Nat → Nat
  | [] => 0
  | d :: ds => d + 10 * digitListVal ds

theorem digitsFuel_val : ∀ fuel n, n ≤ fuel → digitListVal (digitsFuel fuel n) = n := by
  intro fuel
  induction fuel with
  | zero => intro n h; interval_cases n; rfl
  | succ f ih =>
    intro n h
    by_cases h0 : n = 0
    · subst h0; simp [digitsFuel, digitListVal]
    · simp only [digitsFuel, if_neg h0, digitListVal]
      rw [ih (n / 10) (by omega)]
      omega

theorem digitsFuel_lt : ∀ fuel n d, d ∈ digitsFuel fuel n → d < 10 := by
  intro fuel
  induction fuel with
  | zero => intro n d h; simp [digitsFuel] at h
  | succ f ih =>
    intro n d h
    by_cases h0 : n = 0
    · subst h0; simp [digitsFuel] at h
    · simp only [digitsFuel, if_neg h0, List.mem_cons] at h
      rcases h with h | h
      · subst h; exact Nat.mod_lt _ (by norm_num)
      · exact ih _ _ h

theorem digitsFuel_length_le : ∀ fuel n k, n ≤ fuel →
    ((digitsFuel fuel n).length ≤ k ↔ n < 10 ^ k) := by
  intro fuel
  induction fuel with
  | zero =>
    intro n k h
    interval_cases n
    simp [digitsFuel, Nat.pos_pow_of_pos k (by norm_num : 0 < 10)]
  | succ f ih =>
    intro n k h
    by_cases h0 : n = 0
    · subst h0
      simp [digitsFuel, Nat.pos_pow_of_pos k (by norm_num : 0 < 10)]
    · simp only [digitsFuel, if_neg h0, List.length_cons]
      cases k with
      | zero =>
        simp only [Nat.pow_zero]
        omega
      | succ k' =>
        rw [Nat.succ_le_succ_iff, ih (n / 10) k' (by omega), Nat.pow_succ]
        exact Nat.div_lt_iff_lt_mul (by norm_num)

theorem digitVal_digitChar (d : Nat) (h : d < 10) : digitVal (digitChar d) = some d := by
  interval_cases d <;> decide

theorem digitChar_ne_dash (d : Nat) (h : d < 10) : digitChar d ≠ '-' := by
  interval_cases d <;> decide

theorem parseDigitsCore_append (l1 l2 : List Char) (acc : Nat) :
    parseDigitsCore (l1 ++ l2) acc =
      match parseDigitsCore l1 acc with
      | some a => parseDigitsCore l2 a
      | none => none := by
  induction l1 generalizing acc with
  | nil => simp [parseDigitsCore]
  | cons c cs ih =>
    simp only [List.cons_append, parseDigitsCore]
    cases digitVal c with
    | none => simp
    | some d => simp [ih]

theorem parseDigitsCore_digits (ds : List Nat) (acc : Nat) (h : ∀ d ∈ ds, d < 10) :
    parseDigitsCore (ds.reverse.map digitChar) acc
      = some (acc * 10 ^ ds.length + digitListVal ds) := by
  induction ds generalizing acc with
  | nil => simp [parseDigitsCore, digitListVal]
  | cons d ds ih =>
    simp only [List.reverse_cons, List.map_append, List.map_cons, List.map_nil]
    rw [parseDigitsCore_append]
    rw [ih acc (fun x hx => h x (List.mem_cons_of_mem _ hx))]
    simp only [parseDigitsCore, digitVal_digitChar d (h d (List.mem_cons_self _ _))]
    simp only [digitListVal, List.length_cons]
    congr 1
    ring

theorem natToString_parse (n : Nat) :
    parseDigitsCore (natToString n) 0 = some n := by
  by_cases h0 : n = 0
  · subst h0; decide
  · simp only [natToString, if_neg h0]
    rw [parseDigitsCore_digits _ 0 (fun d hd => digitsFuel_lt n n d hd)]
    rw [digitsFuel_val n n (le_refl n)]
    simp

theorem natToString_digit_range (n : Nat) :
    ∀ c ∈ natToString n, 48 ≤ c.toNat ∧ c.toNat ≤ 57 := by
  intro c hc
  by_cases h0 : n = 0
  · subst h0; simp [natToString] at hc; subst hc; decide
  · simp only [natToString, if_neg h0, List.mem_map, List.mem_reverse] at hc
    obtain ⟨d, hd, rfl⟩ := hc
    have := digitsFuel_lt n n d hd
    interval_cases d <;> decide

theorem natToString_ne_nil (n : Nat) : natToString n ≠ [] := by
  by_cases h0 : n = 0
  · subst h0; decide
  · simp only [natToString, if_neg h0]
    intro h
    have h1 : (digitsFuel n n).length ≤ 0 := by
      have := congrArg List.length h
      simpa using this
    rw [digitsFuel_length_le n n 0 (le_refl n)] at h1
    omega

theorem parseUInt_natToString (n maxVal : Nat) (h : n ≤ maxVal) :
    parseUInt maxVal (natToString n) = some n := by
  obtain ⟨c, cs, hccs⟩ : ∃ c cs, natToString n = c :: cs := by
    cases hh : natToString n with
    | nil => exact absurd hh (natToString_ne_nil n)
    | cons c cs => exact ⟨c, cs, rfl⟩
  have hdig := natToString_digit_range n c (by rw [hccs]; exact List.mem_cons_self _ _)
  have hplus : c ≠ '+' := by
    intro hc
    rw [hc] at hdig
    revert hdig
    decide
  simp only [parseUInt, stripPlus, hccs, if_neg hplus]
  rw [← hccs, natToString_parse n]
  simp [h]

theorem byteLen_eq_length_of_digits (s : List Char)
    (h : ∀ c ∈ s, 48 ≤ c.toNat ∧ c.toNat ≤ 57) :
    byteLen s = s.length := by
  unfold byteLen
  induction s with
  | nil => simp
  | cons c cs ih =>
    simp only [List.map_cons, List.sum_cons, List.length_cons]
    have hc := h c (List.mem_cons_self _ _)
    have h1 : utf8Len c = 1 := by
      simp only [utf8Len, if_pos (by omega : c.toNat < 128)]
    rw [h1, ih (fun z hz => h z (List.mem_cons_of_mem _ hz))]
    omega

theorem natToString_length_four (n : Nat) (h1 : 1000 ≤ n) (h2 : n ≤ 9999) :
    (natToString n).length = 4 := by
  have h0 : n ≠ 0 := by omega
  simp only [natToString, if_neg h0, List.length_map, List.length_reverse]
  have ha := (digitsFuel_length_le n n 4 (le_refl n)).mpr (by omega)
  have hb : ¬ ((digitsFuel n n).length ≤ 3) := by
    rw [digitsFuel_length_le n n 3 (le_refl n)]
    omega
  omega

theorem takeBytes_append (a b : List Char) :
    takeBytes (a ++ b) (byteLen a) = some a := by
  induction a with
  | nil => simp [takeBytes, byteLen]
  | cons c cs ih =>
    have hpos : 1 ≤ utf8Len c := by
      simp only [utf8Len]
      split_ifs <;> omega
    simp only [List.cons_append, byteLen, List.map_cons, List.sum_cons]
    rw [show utf8Len c + (List.map utf8Len cs).sum
        = ((List.map utf8Len cs).sum + (utf8Len c - 1)) + 1 by omega]
    simp only [takeBytes, if_pos (by omega : utf8Len c ≤ (List.map utf8Len cs).sum + (utf8Len c - 1) + 1)]
    rw [show (List.map utf8Len cs).sum + (utf8Len c - 1) + 1 - utf8Len c
        = (List.map utf8Len cs).sum by omega]
    rw [show (List.map utf8Len cs).sum = byteLen cs from rfl]
    rw [ih]
    rfl

theorem dropBytes_append (a b : List Char) :
    dropBytes (a ++ b) (byteLen a) = some b := by
  induction a with
  | nil => simp [dropBytes, byteLen]
  | cons c cs ih =>
    have hpos : 1 ≤ utf8Len c := by
      simp only [utf8Len]
      split_ifs <;> omega
    simp only [List.cons_append, byteLen, List.map_cons, List.sum_cons]
    rw [show utf8Len c + (List.map utf8Len cs).sum
        = ((List.map utf8Len cs).sum + (utf8Len c - 1)) + 1 by omega]
    simp only [dropBytes, if_pos (by omega : utf8Len c ≤ (List.map utf8Len cs).sum + (utf8Len c - 1) + 1)]
    rw [show (List.map utf8Len cs).sum + (utf8Len c - 1) + 1 - utf8Len c
        = (List.map utf8Len cs).sum by omega]
    exact ih

theorem byteLen_append (a b : List Char) : byteLen (a ++ b) = byteLen a + byteLen b := by
  simp [byteLen]

theorem natToString_length_one (n : Nat) (h : n < 10) : (natToString n).length = 1 := by
  by_cases h0 : n = 0
  · subst h0; decide
  · simp only [natToString, if_neg h0, List.length_map, List.length_reverse]
    have ha := (digitsFuel_length_le n n 1 (le_refl n)).mpr (by omega)
    have hb : ¬ ((digitsFuel n n).length ≤ 0) := by
      rw [digitsFuel_length_le n n 0 (le_refl n)]
      omega
    omega

theorem natToString_length_two (n : Nat) (h1 : 10 ≤ n) (h2 : n ≤ 99) :
    (natToString n).length = 2 := by
  have h0 : n ≠ 0 := by omega
  simp only [natToString, if_neg h0, List.length_map, List.length_reverse]
  have ha := (digitsFuel_length_le n n 2 (le_refl n)).mpr (by omega)
  have hb : ¬ ((digitsFuel n n).length ≤ 1) := by
    rw [digitsFuel_length_le n n 1 (le_refl n)]
    omega
  omega

theorem byteLen_natToString (n : Nat) : byteLen (natToString n) = (natToString n).length :=
  byteLen_eq_length_of_digits _ (natToString_digit_range n)

/-! ## Theorems for the attempt-result codec claims -/

/-- C6: decoding an integer attempt result maps `0` to `Skipped`, `-1` to `DNF`,
`-2` to `DNS`, every positive integer `x` to `Success(x as u32)` (the value,
cast into the `CentiSeconds` payload, i.e. reduced mod `2^32`), and fails with
the `InvalidResult` error for every other negative integer, e.g. `-3`. -/
theorem attempt_decode_boundary :
    attemptTryFromI64 0 = .ok .Skipped ∧
    attemptTryFromI64 (-1) = .ok .DNF ∧
    attemptTryFromI64 (-2) = .ok .DNS ∧
    (∀ x : Int, 0 < x →
      attemptTryFromI64 x = .ok (.Success (x % 4294967296).toNat)) ∧
    (∀ x : Int, x < 0 → x ≠ -1 → x ≠ -2 → attemptTryFromI64 x = .error ()) ∧
    attemptTryFromI64 (-3) = .error () := by
  refine ⟨by decide, by decide, by decide, ?_, ?_, by decide⟩
  · intro x hx
    simp only [attemptTryFromI64, if_neg (by omega : ¬ x = -2),
      if_neg (by omega : ¬ x = -1), if_neg (by omega : ¬ x = 0), if_pos hx]
  · intro x h1 h2 h3
    simp only [attemptTryFromI64, if_neg h3, if_neg h2,
      if_neg (by omega : ¬ x = 0), if_neg (by omega : ¬ 0 < x)]

/-- Witness for `attempt_decode_boundary`: the quantified parts evaluated at
the concrete inputs `5` and `-7`. -/
theorem attempt_decode_boundary_witness :
    attemptTryFromI64 5 = .ok (.Success 5) ∧ attemptTryFromI64 (-7) = .error () := by
  constructor
  · have h := attempt_decode_boundary.2.2.2.1 5 (by decide)
    simpa using h
  · exact attempt_decode_boundary.2.2.2.2.1 (-7) (by decide) (by decide) (by decide)

/-- C8: for every payload type and payload order, comparing two
`AttemptResult` values makes `Skipped`, `DNF`, `DNS` mutually `Equal`, and any
`Success` value compares `Greater` than each of them (`Less` from the other
side). -/
theorem attempt_cmp_success_outranks :
    ∀ (α : Type) (c : α → α → Ordering) (x y : AttemptResult α),
      (x.isSuccess = false → y.isSuccess = false →
        attemptPartCmp c x y = some Ordering.eq) ∧
      (x.isSuccess = true → y.isSuccess = false →
        attemptPartCmp c x y = some Ordering.gt) ∧
      (x.isSuccess = false → y.isSuccess = true →
        attemptPartCmp c x y = some Ordering.lt) := by
  intro α c x y
  cases x <;> cases y <;>
    simp [attemptPartCmp, AttemptResult.isSuccess]

/-- Witness for `attempt_cmp_success_outranks` at the payload type `Nat` with
its `compare`, on the concrete pairs `(DNF, DNS)`, `(Success 3, Skipped)` and
`(DNS, Success 3)`. -/
theorem attempt_cmp_success_outranks_witness :
    attemptPartCmp compare (.DNF : AttemptResult Nat) .DNS = some Ordering.eq ∧
    attemptPartCmp compare (.Success 3 : AttemptResult Nat) .Skipped = some Ordering.gt ∧
    attemptPartCmp compare (.DNS : AttemptResult Nat) (.Success 3) = some Ordering.lt := by
  exact ⟨(attempt_cmp_success_outranks Nat compare .DNF .DNS).1 rfl rfl,
    (attempt_cmp_success_outranks Nat compare (.Success 3) .Skipped).2.1 rfl rfl,
    (attempt_cmp_success_outranks Nat compare .DNS (.Success 3)).2.2 rfl rfl⟩

/-- C3 (failing input for the code bug): the multi-blind payloads decoded from
`960000000` (3/3 solved, points 3) and `970000000` (2/2 solved, points 2).
The claim (and the hand-written `MultiBlindAttemptResultValue::partial_cmp`)
ranks the first `Success` `Greater` (more points), but
`AttemptResult::partial_cmp` routes through the derived `Ord` (field-
lexicographic: `attempted` first) reversed, returning `Less`. -/
theorem attempt_cmp_multiblind_divergence :
    mbPoints (mbFromRaw 960000000) = 3 ∧
    mbPoints (mbFromRaw 970000000) = 2 ∧
    attemptPartCmp mbDerivedCmp
      (.Success (mbFromRaw 960000000)) (.Success (mbFromRaw 970000000))
      = some Ordering.lt ∧
    mbPartCmp (mbFromRaw 960000000) (mbFromRaw 970000000) = some Ordering.gt := by
  decide

/-- C9: on the payloads decoded from `950000000` (4/4, points 4) and
`960000001` (4/5, points 3) the derived lexicographic `cmp` and the
hand-written points-based `partial_cmp` disagree (`Less` versus `Greater`),
and comparing two `Success` attempt results is by definition the reversed
derived `cmp` of the payloads, so at the pair decoded from `940000000` (5/5)
and `950000000` (4/4) the `AttemptResult` comparison returns `Less` while the
points rule says `Greater`. -/
theorem multiblind_derived_vs_manual_cmp :
    mbDerivedCmp (mbFromRaw 950000000) (mbFromRaw 960000001) = Ordering.lt ∧
    mbPartCmp (mbFromRaw 950000000) (mbFromRaw 960000001) = some Ordering.gt ∧
    (∀ x y : MultiBlindAttemptResultValue,
      attemptPartCmp mbDerivedCmp (.Success x) (.Success y)
        = some ((mbDerivedCmp x y).swap)) ∧
    attemptPartCmp mbDerivedCmp
      (.Success (mbFromRaw 940000000)) (.Success (mbFromRaw 950000000))
      = some Ordering.lt ∧
    mbPartCmp (mbFromRaw 940000000) (mbFromRaw 950000000) = some Ordering.gt := by
  exact ⟨by decide, by decide, fun x y => rfl, by decide, by decide⟩

/-- C4 (counterexample): the raw value `2000000000` is `≥ 1_000_000_000`, so it
decodes with the legacy layout, but re-encoding does not restore it: the
result is `1000000000`. -/
theorem multiblind_roundtrip_counterexample :
    mbSerialize (mbFromRaw 2000000000) = 1000000000 ∧
    mbSerialize (mbFromRaw 2000000000) ≠ 2000000000 := by
  decide

/-- C4 (amended): re-encoding the decoded `MultiBlindResult` restores the raw
integer for every `raw < 1_000_000_000` (current layout) and for every
`1_000_000_000 ≤ raw < 2_000_000_000` (legacy layout); in particular
`870300004` decodes to `{solved:16, attempted:20, time:3000, old_style:false}`
and re-encodes to itself.  (For `raw ≥ 2_000_000_000` the legacy re-encode
loses the excess over the `1_000_000_000` marker, see the counterexample.) -/
theorem multiblind_roundtrip :
    (∀ raw : Nat, raw < 1000000000 → mbSerialize (mbFromRaw raw) = raw) ∧
    (∀ raw : Nat, 1000000000 ≤ raw → raw < 2000000000 →
      mbSerialize (mbFromRaw raw) = raw) ∧
    mbFromRaw 870300004 = ⟨20, 16, 3000, false⟩ ∧
    mbSerialize (mbFromRaw 870300004) = 870300004 := by
  refine ⟨?_, ?_, by decide, by decide⟩
  · intro raw h
    simp only [mbFromRaw, mbSerialize, mbPoints, mbFailed, u32sub, if_pos h,
      Bool.false_eq_true, if_false, reduceIte]
    omega
  · intro raw h1 h2
    have k1 : raw / 100000 / 100 = raw / 10000000 := by
      rw [Nat.div_div_eq_div_mul]
    have k2 : raw / 10000000 % 100 = raw / 10000000 - 100 := by omega
    have hs : (99 + 4294967296 - (99 - (raw / 10000000 - 100))) % 4294967296
        = raw / 10000000 - 100 := by omega
    simp only [mbFromRaw, mbSerialize, mbPoints, mbFailed, u32sub,
      if_neg (by omega : ¬ raw < 1000000000), reduceIte, k1, k2]
    rw [hs]
    rw [Nat.mod_eq_of_lt (by omega)]
    omega

/-- Witness for `multiblind_roundtrip`: both quantified round-trip parts at
the spec's worked examples `870300004` (current) and `1832003000` (legacy). -/
theorem multiblind_roundtrip_witness :
    mbSerialize (mbFromRaw 870300004) = 870300004 ∧
    mbSerialize (mbFromRaw 1832003000) = 1832003000 := by
  exact ⟨multiblind_roundtrip.1 870300004 (by decide),
    multiblind_roundtrip.2.1 1832003000 (by decide) (by decide)⟩

/-! ## Theorems for the identifier codec claims -/

/-- C5 (counterexample): the constructible `WCAId { year: 2015, discriminant:
100, name: "DOEJ" }` formats to the 11-char string `"2015DOEJ100"` (the
`{:0>2}` padding does not cut a 3-digit discriminant down), so parsing the
encoded string fails with a length error instead of returning the value. -/
theorem wcaid_roundtrip_counterexample :
    wcaIdDisplay ⟨2015, 100, ['D','O','E','J']⟩
      = ['2','0','1','5','D','O','E','J','1','0','0'] ∧
    wcaIdFromStr (wcaIdDisplay ⟨2015, 100, ['D','O','E','J']⟩)
      = .err (.LengthError 11) ∧
    wcaIdFromStr (wcaIdDisplay ⟨2015, 100, ['D','O','E','J']⟩)
      ≠ .ok ⟨2015, 100, ['D','O','E','J']⟩ := by
  decide

/-- C5 (amended): for every `WCAId` whose year has four digits
(`1000 ≤ year ≤ 9999`), whose discriminant has at most two digits
(`≤ 99`), and whose name occupies exactly 4 bytes, parsing the encoded
string (`year ++ name ++ zero-padded-2-digit discriminant`) yields the value
back. -/
theorem wcaid_roundtrip : ∀ w : WCAId,
    1000 ≤ w.year → w.year ≤ 9999 → w.discriminant ≤ 99 →
    byteLen w.name = 4 → wcaIdFromStr (wcaIdDisplay w) = .ok w := by
  intro w hy1 hy2 hd hn
  obtain ⟨y, d, nm⟩ := w
  simp only at hy1 hy2 hd hn
  have hYb : byteLen (natToString y) = 4 := by
    rw [byteLen_natToString, natToString_length_four y hy1 hy2]
  have hDb : byteLen (if d < 10 then '0' :: natToString d else natToString d) = 2 := by
    by_cases hlt : d < 10
    · simp only [if_pos hlt, byteLen, List.map_cons, List.sum_cons]
      have h1 : byteLen (natToString d) = 1 := by
        rw [byteLen_natToString, natToString_length_one d hlt]
      simp only [byteLen] at h1
      rw [h1]
      decide
    · simp only [if_neg hlt]
      rw [byteLen_natToString, natToString_length_two d (by omega) hd]
  have hDparse : parseUInt 255 (if d < 10 then '0' :: natToString d else natToString d)
      = some d := by
    by_cases hlt : d < 10
    · simp only [if_pos hlt, parseUInt, stripPlus, if_neg (by decide : ¬ ('0' : Char) = '+')]
      simp only [parseDigitsCore, digitVal]
      rw [if_pos (by decide : 48 ≤ '0'.toNat ∧ '0'.toNat ≤ 57)]
      simp only [show '0'.toNat - 48 = 0 by decide]
      rw [show 0 * 10 + 0 = 0 by omega, natToString_parse d]
      simp [show d ≤ 255 by omega]
    · simp only [if_neg hlt]
      exact parseUInt_natToString d 255 (by omega)
  have hdisp : wcaIdDisplay ⟨y, d, nm⟩ = natToString y ++ (nm ++
      (if d < 10 then '0' :: natToString d else natToString d)) := by
    simp [wcaIdDisplay]
  have hlen : byteLen (natToString y ++ (nm ++
      (if d < 10 then '0' :: natToString d else natToString d))) = 10 := by
    rw [byteLen_append, byteLen_append, hYb, hn, hDb]
  have e1 : takeBytes (natToString y ++ (nm ++
      (if d < 10 then '0' :: natToString d else natToString d))) 4
      = some (natToString y) := by
    rw [← hYb]; exact takeBytes_append _ _
  have e2 : dropBytes (natToString y ++ (nm ++
      (if d < 10 then '0' :: natToString d else natToString d))) 4
      = some (nm ++ (if d < 10 then '0' :: natToString d else natToString d)) := by
    rw [← hYb]; exact dropBytes_append _ _
  have e3 : takeBytes (nm ++ (if d < 10 then '0' :: natToString d else natToString d)) 4
      = some nm := by
    rw [← hn]; exact takeBytes_append _ _
  have e4 : dropBytes (nm ++ (if d < 10 then '0' :: natToString d else natToString d)) 4
      = some (if d < 10 then '0' :: natToString d else natToString d) := by
    rw [← hn]; exact dropBytes_append _ _
  rw [hdisp]
  simp only [wcaIdFromStr, hlen, e1, e2, e3, e4,
    parseUInt_natToString y 65535 (by omega), hDparse, ne_eq, reduceIte]
  simp

/-- Witness for `wcaid_roundtrip`: the spec's example `"2015DOEJ01"`. -/
theorem wcaid_roundtrip_witness :
    wcaIdFromStr (wcaIdDisplay ⟨2015, 1, ['D','O','E','J']⟩)
      = .ok ⟨2015, 1, ['D','O','E','J']⟩ := by
  exact wcaid_roundtrip ⟨2015, 1, ['D','O','E','J']⟩
    (by decide) (by decide) (by decide) (by decide)

/-- C10: `WCAId` decoding is not total: the input `"123é56789"` has byte
length exactly 10 (9 chars, with the 2-byte char `é` spanning byte index 4),
passes the length check (which counts bytes), and then the byte slice
`&s[..4]` panics instead of producing a decode error. -/
theorem wcaid_multibyte_panic :
    byteLen ['1','2','3','é','5','6','7','8','9'] = 10 ∧
    (['1','2','3','é','5','6','7','8','9'] : List Char).length = 9 ∧
    utf8Len 'é' = 2 ∧
    takeBytes ['1','2','3','é','5','6','7','8','9'] 4 = none ∧
    wcaIdFromStr ['1','2','3','é','5','6','7','8','9'] = .panicked := by
  decide

/-! ## Helper lemmas for the activity grammar -/

theorem splitOnDash_ne_nil (s : List Char) : splitOnDash s ≠ [] := by
  induction s with
  | nil => simp [splitOnDash]
  | cons c cs ih =>
    simp only [splitOnDash]
    cases h : splitOnDash cs with
    | nil => simp
    | cons p ps =>
      by_cases hc : c = '-' <;> simp [hc]

theorem splitOnDash_noDash (a : List Char) (h : '-' ∉ a) : splitOnDash a = [a] := by
  induction a with
  | nil => rfl
  | cons c cs ih =>
    have hc : ¬ (c = '-') := by
      intro e; subst e; exact h (List.mem_cons_self _ _)
    have hcs : '-' ∉ cs := fun m => h (List.mem_cons_of_mem _ m)
    simp [splitOnDash, ih hcs, hc]

theorem splitOnDash_append (a b : List Char) (h : '-' ∉ a) :
    splitOnDash (a ++ '-' :: b) = a :: splitOnDash b := by
  induction a with
  | nil =>
    simp only [List.nil_append, splitOnDash]
    cases hb : splitOnDash b with
    | nil => exact absurd hb (splitOnDash_ne_nil b)
    | cons p ps => simp
  | cons c cs ih =>
    have hc : ¬ (c = '-') := by
      intro e; subst e; exact h (List.mem_cons_self _ _)
    have hcs : '-' ∉ cs := fun m => h (List.mem_cons_of_mem _ m)
    simp only [List.cons_append, splitOnDash, List.append_eq]
    rw [ih hcs]
    simp [hc]

theorem splitOnDash_cons (c : Char) (a b : List Char) (hc : ¬ ('-' = c)) (h : '-' ∉ a) :
    splitOnDash (c :: (a ++ '-' :: b)) = (c :: a) :: splitOnDash b := by
  have h2 : '-' ∉ c :: a := by
    intro hm
    rcases List.mem_cons.mp hm with h1 | h1
    · exact hc h1
    · exact h h1
  have he := splitOnDash_append (c :: a) b h2
  simpa [List.cons_append] using he

theorem natToString_noDash (n : Nat) : '-' ∉ natToString n := by
  intro hm
  have := natToString_digit_range n '-' hm
  revert this
  decide

theorem noDash_token (c : Char) (hc : ¬ ('-' = c)) (n : Nat) :
    '-' ∉ c :: natToString n := by
  intro hm
  rcases List.mem_cons.mp hm with h | h
  · exact hc h
  · exact natToString_noDash n h

theorem roundStage_hit (r : Nat) (hr : r ≤ 4294967295) (tl : List (List Char)) :
    roundStage (('r' :: natToString r) :: tl) = .ok (some r, tl) := by
  simp [roundStage, startsWithChar, parseUInt_natToString r 4294967295 hr]

theorem groupStage_hit (g : Nat) (hg : g ≤ 4294967295) (tl : List (List Char)) :
    groupStage (('g' :: natToString g) :: tl) = .ok (some g, tl) := by
  simp [groupStage, startsWithChar, parseUInt_natToString g 4294967295 hg]

theorem attemptStage_hit (t : Nat) (ht : t ≤ 255) (tl : List (List Char)) :
    attemptStage (('a' :: natToString t) :: tl) = .ok (some t) := by
  simp [attemptStage, startsWithChar, parseUInt_natToString t 255 ht]

theorem roundStage_skip (x : List Char) (tl : List (List Char))
    (h : startsWithChar 'r' x = false) : roundStage (x :: tl) = .ok (none, x :: tl) := by
  simp [roundStage, h]

theorem groupStage_skip (x : List Char) (tl : List (List Char))
    (h : startsWithChar 'g' x = false) : groupStage (x :: tl) = .ok (none, x :: tl) := by
  simp [groupStage, h]

theorem attemptStage_skip (x : List Char) (tl : List (List Char))
    (h : startsWithChar 'a' x = false) : attemptStage (x :: tl) = .ok none := by
  simp [attemptStage, h]

theorem roundStage_nil : roundStage [] = .ok (none, []) := rfl

theorem groupStage_nil : groupStage [] = .ok (none, []) := rfl

theorem attemptStage_nil : attemptStage [] = .ok none := rfl

/-- Round trip of `EventActivityCode` formatting then parsing, generic in the
event codec: holds whenever the event's own round trip holds, its rendering
contains no `-`, and the numeric fields are in `u32`/`u8` range. -/
theorem eacRoundTrip {ε : Type} (pe : List Char → Except Unit ε) (de : ε → List Char)
    (e : EventActivityCode ε)
    (hev : pe (de e.event) = .ok e.event)
    (hnd : '-' ∉ de e.event)
    (hr : ∀ r, e.round = some r → r ≤ 4294967295)
    (hg : ∀ g, e.group = some g → g ≤ 4294967295)
    (ha : ∀ t, e.attempt = some t → t ≤ 255) :
    parseEventActivityCode pe (displayEventActivityCode de e) = .ok e := by
  obtain ⟨ev, r?, g?, a?⟩ := e
  simp only at hev hnd hr hg ha
  cases r? with
  | none => cases g? with
    | none => cases a? with
      | none =>
        simp only [displayEventActivityCode, List.append_nil]
        rw [parseEventActivityCode, splitOnDash_noDash _ hnd]
        simp [hev, roundStage_nil, groupStage_nil, attemptStage_nil]
      | some t =>
        have hT := ha t rfl
        simp only [displayEventActivityCode, List.append_nil, List.nil_append]
        rw [parseEventActivityCode]
        rw [splitOnDash_append _ _ hnd,
          splitOnDash_noDash _ (noDash_token 'a' (by decide) t)]
        simp [hev, roundStage_skip ('a' :: natToString t) [] (by simp [startsWithChar]),
          groupStage_skip ('a' :: natToString t) [] (by simp [startsWithChar]),
          attemptStage_hit t hT]
    | some g => cases a? with
      | none =>
        have hG := hg g rfl
        simp only [displayEventActivityCode, List.append_nil, List.nil_append]
        rw [parseEventActivityCode]
        rw [splitOnDash_append _ _ hnd,
          splitOnDash_noDash _ (noDash_token 'g' (by decide) g)]
        simp [hev, roundStage_skip ('g' :: natToString g) [] (by simp [startsWithChar]),
          groupStage_hit g hG, attemptStage_nil]
      | some t =>
        have hG := hg g rfl
        have hT := ha t rfl
        simp only [displayEventActivityCode, List.append_nil, List.nil_append,
          List.append_assoc, List.cons_append]
        rw [parseEventActivityCode]
        rw [splitOnDash_append _ _ hnd,
          splitOnDash_cons 'g' _ _ (by decide) (natToString_noDash g),
          splitOnDash_noDash _ (noDash_token 'a' (by decide) t)]
        simp [hev,
          roundStage_skip ('g' :: natToString g) [('a' :: natToString t)]
            (by simp [startsWithChar]),
          groupStage_hit g hG, attemptStage_hit t hT]
  | some r => cases g? with
    | none => cases a? with
      | none =>
        have hR := hr r rfl
        simp only [displayEventActivityCode, List.append_nil, List.nil_append]
        rw [parseEventActivityCode]
        rw [splitOnDash_append _ _ hnd,
          splitOnDash_noDash _ (noDash_token 'r' (by decide) r)]
        simp [hev, roundStage_hit r hR, groupStage_nil, attemptStage_nil]
      | some t =>
        have hR := hr r rfl
        have hT := ha t rfl
        simp only [displayEventActivityCode, List.append_nil, List.nil_append,
          List.append_assoc, List.cons_append]
        rw [parseEventActivityCode]
        rw [splitOnDash_append _ _ hnd,
          splitOnDash_cons 'r' _ _ (by decide) (natToString_noDash r),
          splitOnDash_noDash _ (noDash_token 'a' (by decide) t)]
        simp [hev, roundStage_hit r hR,
          groupStage_skip ('a' :: natToString t) [] (by simp [startsWithChar]),
          attemptStage_hit t hT]
    | some g => cases a? with
      | none =>
        have hR := hr r rfl
        have hG := hg g rfl
        simp only [displayEventActivityCode, List.append_nil, List.nil_append,
          List.append_assoc, List.cons_append]
        rw [parseEventActivityCode]
        rw [splitOnDash_append _ _ hnd,
          splitOnDash_cons 'r' _ _ (by decide) (natToString_noDash r),
          splitOnDash_noDash _ (noDash_token 'g' (by decide) g)]
        simp [hev, roundStage_hit r hR, groupStage_hit g hG, attemptStage_nil]
      | some t =>
        have hR := hr r rfl
        have hG := hg g rfl
        have hT := ha t rfl
        simp only [displayEventActivityCode, List.append_nil, List.nil_append,
          List.append_assoc, List.cons_append]
        rw [parseEventActivityCode]
        rw [splitOnDash_append _ _ hnd,
          splitOnDash_cons 'r' _ _ (by decide) (natToString_noDash r),
          splitOnDash_cons 'g' _ _ (by decide) (natToString_noDash g),
          splitOnDash_noDash _ (noDash_token 'a' (by decide) t)]
        simp [hev, roundStage_hit r hR, groupStage_hit g hG, attemptStage_hit t hT]

theorem eventId_roundtrip (ev : OfficialEventId) :
    eventIdFromStr (eventIdDisplay ev) = .ok ev := by
  cases ev <;> decide

theorem eventId_noDash (ev : OfficialEventId) : '-' ∉ eventIdDisplay ev := by
  cases ev <;> decide

theorem official_display_not_other (e : EventActivityCode OfficialEventId) :
    startsWithChars ['o','t','h','e','r','-']
      (displayEventActivityCode eventIdDisplay e) = false := by
  obtain ⟨ev, r?, g?, a?⟩ := e
  simp only [displayEventActivityCode, List.append_assoc]
  cases ev <;> simp [eventIdDisplay, startsWithChars, List.cons_append]

theorem startsWithChars_self_append (p s : List Char) :
    startsWithChars p (p ++ s) = true := by
  induction p with
  | nil => rfl
  | cons c cs ih => simp [startsWithChars, ih]

/-! ## Theorems for the activity grammar claims -/

/-- C1 (counterexample): the spec's own example pair.  With the same event
and round, one side additionally carrying a group, `partial_cmp` returns
`Some(Equal)` (the direction accumulated from round/group is discarded when
the attempt fields are equal), not `Some(Less)` as the claim states. -/
theorem eac_partcmp_counterexample :
    partCmpEventActivityCode
      (⟨.Cube333, some 1, none, none⟩ : EventActivityCode OfficialEventId)
      ⟨.Cube333, some 1, some 2, none⟩ = some Ordering.eq ∧
    partCmpEventActivityCode
      (⟨.Cube333, some 1, none, none⟩ : EventActivityCode OfficialEventId)
      ⟨.Cube333, some 1, some 2, none⟩ ≠ some Ordering.lt := by
  decide

/-- C1 (amended): for two `EventActivityCode` values with the same event
where each of round and group is either equal on both sides or absent on the
`b` side, the only field pair that decides a strict order is the attempt: if
exactly one side has the attempt (here `a`), the side missing it compares
`Greater` (the more specific side is `Less`); if the attempt fields are
equal, `partial_cmp` returns `Equal` regardless of the remaining one-sided
round/group differences — in particular `{event:333, round:1}` compares
`Equal` to, not `Less` than, `{event:333, round:1, group:2}`. -/
theorem eac_partcmp_direction : ∀ (a b : EventActivityCode OfficialEventId),
    a.event = b.event →
    (a.round = b.round ∨ b.round = none) →
    (a.group = b.group ∨ b.group = none) →
    ((a.attempt ≠ none ∧ b.attempt = none →
        partCmpEventActivityCode a b = some Ordering.lt ∧
        partCmpEventActivityCode b a = some Ordering.gt) ∧
      (a.attempt = b.attempt →
        partCmpEventActivityCode a b = some Ordering.eq ∧
        partCmpEventActivityCode b a = some Ordering.eq)) := by
  intro a b hev hr hg
  obtain ⟨ea, ra, ga, aa⟩ := a
  obtain ⟨eb, rb, gb, ab⟩ := b
  simp only at hev hr hg
  subst hev
  constructor
  · rintro ⟨ha, hb⟩
    simp only at ha hb
    subst hb
    obtain ⟨x, rfl⟩ : ∃ x, aa = some x := by
      cases aa with
      | none => exact absurd rfl ha
      | some x => exact ⟨x, rfl⟩
    rcases hr with rfl | rfl <;> rcases hg with rfl | rfl <;>
      cases ra <;> cases ga <;>
        simp_all [partCmpEventActivityCode]
  · rintro rfl
    rcases hr with rfl | rfl <;> rcases hg with rfl | rfl <;>
      cases ra <;> cases ga <;> cases aa <;>
        simp_all [partCmpEventActivityCode]

/-- Witness for `eac_partcmp_direction`: `333-r1-a3` versus `333-r1` (strict
order decided at the attempt, the refined side being `Less`), and
`333-r1-g2` versus `333-r1` (attempts equal, result `Equal` both ways, which
is the spec's example pair). -/
theorem eac_partcmp_direction_witness :
    (partCmpEventActivityCode
        (⟨.Cube333, some 1, none, some 3⟩ : EventActivityCode OfficialEventId)
        ⟨.Cube333, some 1, none, none⟩ = some Ordering.lt ∧
      partCmpEventActivityCode
        (⟨.Cube333, some 1, none, none⟩ : EventActivityCode OfficialEventId)
        ⟨.Cube333, some 1, none, some 3⟩ = some Ordering.gt) ∧
    (partCmpEventActivityCode
        (⟨.Cube333, some 1, some 2, none⟩ : EventActivityCode OfficialEventId)
        ⟨.Cube333, some 1, none, none⟩ = some Ordering.eq ∧
      partCmpEventActivityCode
        (⟨.Cube333, some 1, none, none⟩ : EventActivityCode OfficialEventId)
        ⟨.Cube333, some 1, some 2, none⟩ = some Ordering.eq) := by
  refine ⟨?_, ?_⟩
  · exact (eac_partcmp_direction ⟨.Cube333, some 1, none, some 3⟩
      ⟨.Cube333, some 1, none, none⟩ rfl (Or.inl rfl) (Or.inl rfl)).1
      ⟨by decide, rfl⟩
  · exact (eac_partcmp_direction ⟨.Cube333, some 1, some 2, none⟩
      ⟨.Cube333, some 1, none, none⟩ rfl (Or.inl rfl) (Or.inr rfl)).2 rfl

/-- C2 (counterexample): parsing `"333-x"` — the token `x` reaches the
attempt step, is present, and lacks the `a` prefix — succeeds with all
optional fields absent instead of returning a decode failure. -/
theorem activity_parse_attempt_counterexample :
    parseEventActivityCode eventIdFromStr ("333-x".toList)
      = .ok ⟨.Cube333, none, none, none⟩ ∧
    parseEventActivityCode eventIdFromStr ("333-x".toList) ≠ .error () := by
  decide

/-- C2 (amended): a round or group token that is out of order or lacks its
`r`/`g` prefix is not consumed and the field is absent (no error); an
attempt token that is present but does not start with `a` is consumed (the
attempt step uses `next()`, not `peek()`) and likewise yields absence, not a
failure — `"333-x"` parses successfully with every optional field `None`.  A
decode failure arises only when a token with the right prefix has a
malformed number, as in `"333-ax"`. -/
theorem activity_parse_token_handling :
    (∀ (x : List Char) (tl : List (List Char)), startsWithChar 'r' x = false →
      roundStage (x :: tl) = .ok (none, x :: tl)) ∧
    (∀ (x : List Char) (tl : List (List Char)), startsWithChar 'g' x = false →
      groupStage (x :: tl) = .ok (none, x :: tl)) ∧
    (∀ (x : List Char) (tl : List (List Char)), startsWithChar 'a' x = false →
      attemptStage (x :: tl) = .ok none) ∧
    parseEventActivityCode eventIdFromStr ("333-x".toList)
      = .ok ⟨.Cube333, none, none, none⟩ ∧
    parseEventActivityCode eventIdFromStr ("333-ax".toList) = .error () := by
  refine ⟨?_, ?_, ?_, by decide, by decide⟩
  · intro x tl h
    simp [roundStage, h]
  · intro x tl h
    simp [groupStage, h]
  · intro x tl h
    simp [attemptStage, h]

/-- Witness for `activity_parse_token_handling`: its quantified parts at the
concrete token `"x"` with an empty remainder. -/
theorem activity_parse_token_handling_witness :
    roundStage (['x'] :: []) = .ok (none, ['x'] :: []) ∧
    groupStage (['x'] :: []) = .ok (none, ['x'] :: []) ∧
    attemptStage (['x'] :: []) = .ok none := by
  exact ⟨activity_parse_token_handling.1 ['x'] [] (by decide),
    activity_parse_token_handling.2.1 ['x'] [] (by decide),
    activity_parse_token_handling.2.2.1 ['x'] [] (by decide)⟩

/-- C7 (counterexample): the constructible unofficial event-shaped code with
the hyphenated event string `"a-b"` formats to `"other-unofficial-a-b"`, but
parsing that string splits at the hyphen and returns the different value
`{event:"a"}` — the round trip fails. -/
theorem activity_roundtrip_counterexample :
    displayActivityCode (.Unofficial (.Event ⟨"a-b".toList, none, none, none⟩))
      = "other-unofficial-a-b".toList ∧
    parseActivityCode (displayActivityCode
        (.Unofficial (.Event ⟨"a-b".toList, none, none, none⟩)))
      = .ok (.Unofficial (.Event ⟨"a".toList, none, none, none⟩)) ∧
    (ActivityCode.Unofficial (.Event ⟨"a".toList, none, none, none⟩))
      ≠ .Unofficial (.Event ⟨"a-b".toList, none, none, none⟩) := by
  decide

/-- C7 (amended): parsing inverts formatting for every constructible
`ActivityCode` that does not use the deprecated `Other` catch-all, provided
an unofficial event-shaped payload's free-form event string contains no
hyphen (official event renderings never do): official codes as
`event[-r{round}][-g{group}][-a{attempt}]`, unofficial codes as `"other-"`
plus the keyword / `misc[-label]` / `unofficial-<code>` rendering.  The
numeric side conditions are the `u32`/`u8` ranges of the round, group and
attempt fields. -/
theorem activity_roundtrip :
    (∀ e : EventActivityCode OfficialEventId,
      (∀ r, e.round = some r → r ≤ 4294967295) →
      (∀ g, e.group = some g → g ≤ 4294967295) →
      (∀ t, e.attempt = some t → t ≤ 255) →
      parseActivityCode (displayActivityCode (.Official e)) = .ok (.Official e)) ∧
    (∀ e : EventActivityCode (List Char), '-' ∉ e.event →
      (∀ r, e.round = some r → r ≤ 4294967295) →
      (∀ g, e.group = some g → g ≤ 4294967295) →
      (∀ t, e.attempt = some t → t ≤ 255) →
      parseActivityCode (displayActivityCode (.Unofficial (.Event e)))
        = .ok (.Unofficial (.Event e))) ∧
    (∀ x : List Char,
      parseActivityCode (displayActivityCode (.Unofficial (.Misc (some x))))
        = .ok (.Unofficial (.Misc (some x)))) ∧
    (parseActivityCode (displayActivityCode (.Unofficial .Registration))
        = .ok (.Unofficial .Registration) ∧
      parseActivityCode (displayActivityCode (.Unofficial .Checkin))
        = .ok (.Unofficial .Checkin) ∧
      parseActivityCode (displayActivityCode (.Unofficial .Tutorial))
        = .ok (.Unofficial .Tutorial) ∧
      parseActivityCode (displayActivityCode (.Unofficial .MultiSubmission))
        = .ok (.Unofficial .MultiSubmission) ∧
      parseActivityCode (displayActivityCode (.Unofficial .Breakfast))
        = .ok (.Unofficial .Breakfast) ∧
      parseActivityCode (displayActivityCode (.Unofficial .Lunch))
        = .ok (.Unofficial .Lunch) ∧
      parseActivityCode (displayActivityCode (.Unofficial .Dinner))
        = .ok (.Unofficial .Dinner) ∧
      parseActivityCode (displayActivityCode (.Unofficial .Awards))
        = .ok (.Unofficial .Awards) ∧
      parseActivityCode (displayActivityCode (.Unofficial (.Misc none)))
        = .ok (.Unofficial (.Misc none))) := by
  refine ⟨?_, ?_, ?_, by decide⟩
  · intro e hr hg ha
    simp only [displayActivityCode]
    rw [parseActivityCode]
    rw [official_display_not_other e]
    simp only [Bool.false_eq_true, if_false]
    rw [eacRoundTrip eventIdFromStr eventIdDisplay e (eventId_roundtrip e.event)
      (eventId_noDash e.event) hr hg ha]
  · intro e hnd hr hg ha
    simp only [displayActivityCode, displayUnofficialActivityCode]
    rw [parseActivityCode]
    rw [startsWithChars_self_append]
    simp only [if_true]
    rw [show (6 : Nat) = (['o','t','h','e','r','-'] : List Char).length from rfl,
      List.drop_left]
    rw [parseUnofficialActivityCode]
    simp only [List.cons_append, List.nil_append]
    rw [show ('u' :: 'n' :: 'o' :: 'f' :: 'f' :: 'i' :: 'c' :: 'i' :: 'a' :: 'l' :: '-' ::
        displayEventActivityCode (fun s => s) e : List Char)
        = ['u','n','o','f','f','i','c','i','a','l','-'] ++
          displayEventActivityCode (fun s => s) e from rfl]
    rw [startsWithChars_self_append]
    simp only [Bool.true_eq_false, if_false, if_true]
    rw [show (11 : Nat)
        = (['u','n','o','f','f','i','c','i','a','l','-'] : List Char).length from rfl,
      List.drop_left]
    rw [eacRoundTrip parseStringEvent (fun s => s) e rfl hnd hr hg ha]
    simp
  · intro x
    simp only [displayActivityCode, displayUnofficialActivityCode]
    rw [parseActivityCode]
    rw [startsWithChars_self_append]
    simp only [if_true]
    rw [show (6 : Nat) = (['o','t','h','e','r','-'] : List Char).length from rfl,
      List.drop_left]
    simp [parseUnofficialActivityCode, startsWithChars, List.cons_append]

/-- Witness for `activity_roundtrip`: the quantified parts at the spec's
example `"333-r1-g2-a3"`, at the unofficial event-shaped code
`"other-unofficial-xyz-g5"`, and at the label of `"other-misc-foo"`. -/
theorem activity_roundtrip_witness :
    parseActivityCode ("333-r1-g2-a3".toList)
      = .ok (.Official ⟨.Cube333, some 1, some 2, some 3⟩) ∧
    parseActivityCode ("other-unofficial-xyz-g5".toList)
      = .ok (.Unofficial (.Event ⟨"xyz".toList, none, some 5, none⟩)) ∧
    parseActivityCode ("other-misc-foo".toList)
      = .ok (.Unofficial (.Misc (some "foo".toList))) := by
  refine ⟨?_, ?_, ?_⟩
  · have h := activity_roundtrip.1 ⟨.Cube333, some 1, some 2, some 3⟩
      (by intro r hr; cases hr; decide)
      (by intro g hg; cases hg; decide)
      (by intro t ht; cases ht; decide)
    simpa using h
  · have h := activity_roundtrip.2.1 ⟨"xyz".toList, none, some 5, none⟩
      (by decide)
      (by intro r hr; cases hr)
      (by intro g hg; cases hg; decide)
      (by intro t ht; cases ht)
    simpa using h
  · have h := activity_roundtrip.2.2.1 ("foo".toList)
    simpa using h
